import Mathlib

/-!
Shallow embedding of the SQuID-Lab-quam configuration library
(`squid_lab_quam`), covering the parts of the code that the verified
properties below are about:

* `squid_lab_quam/components/pulse_sets.py` — `PulseSet.add_drive_pulses`;
* `squid_lab_quam/components/wiring.py` — `_default_octave_port`;
* `squid_lab_quam/components/octave.py` — `OctaveUpConverterSQuID.find_opx_outputs`
  and `OctaveDownConverterSQuID.find_opx_inputs`;
* `squid_lab_quam/components/qubits.py` — `ScQubit.thermalization_time`;
* `squid_lab_quam/components/roots.py` — the lazily cached `SQuIDRoot1.qm`;
* `squid_lab_quam/utils.py` — `key_from_parent_dict`.

Python dictionaries are embedded as association lists in insertion order
(`PyDict`); Python `dict.__or__`, item assignment and deletion are embedded
by `PyDict.union`, `PyDict.set` and `PyDict.erase` with Python's semantics
(on `a | b` the values of `b` win for shared keys; item assignment updates
an existing key in place and otherwise appends).  Python integers are `Int`;
for a positive divisor Python's `//` and `%` agree with Lean's `Int` division
and modulus, which the wiring embedding relies on.  Exceptions are embedded
as `Except` results or explicit error components of the return value.
-/

namespace SquidLabQuam

/-- A Python dict in insertion order: an association list from string keys to
values.  Real Python dicts have no duplicate keys; lookups below use the
first occurrence, which agrees with Python wherever duplicates cannot arise. -/
abbrev PyDict (V : Type) : Type := List (String × V)

namespace PyDict

/-- Lookup `d[k]` as a total function: `some v` if `k` is a key of `d`, else `none`. -/
def lookup {V : Type} (d : PyDict V) (k : String) : Option V :=
  (d.find? (fun kv => kv.1 = k)).map Prod.snd

/-- The keys of a dict, in insertion order (`d.keys()`). -/
def keys {V : Type} (d : PyDict V) : List String :=
  d.map Prod.fst

/-- Python item assignment `d[k] = v`: update the entry for `k` in place if it
exists, otherwise append a new entry at the end. -/
def set {V : Type} : PyDict V → String → V → PyDict V
  | [], k, v => [(k, v)]
  | kv :: rest, k, v =>
    if kv.1 = k then (k, v) :: rest else kv :: set rest k v

/-- Python deletion `del d[k]`: remove the entry for `k` if present. -/
def erase {V : Type} : PyDict V → String → PyDict V
  | [], _ => []
  | kv :: rest, k =>
    if kv.1 = k then rest else kv :: erase rest k

/-- Python dict union `a | b`: the keys of `a` (with the value from `b`
whenever `b` also has the key) followed by the keys of `b` not in `a`.
For shared keys the value of the RIGHT operand wins. -/
def union {V : Type} (a b : PyDict V) : PyDict V :=
  a.map (fun kv => (kv.1, (lookup b kv.1).getD kv.2)) ++
    b.filter (fun kv => (lookup a kv.1).isNone)

theorem lookup_nil {V : Type} (k : String) : lookup ([] : PyDict V) k = none := rfl

theorem lookup_cons {V : Type} (kv : String × V) (d : PyDict V) (k : String) :
    lookup (kv :: d) k = if kv.1 = k then some kv.2 else lookup d k := by
  by_cases h : kv.1 = k <;> simp [lookup, List.find?_cons, h]

theorem lookup_append {V : Type} (d₁ d₂ : PyDict V) (k : String) :
    lookup (d₁ ++ d₂) k = (lookup d₁ k).or (lookup d₂ k) := by
  induction d₁ with
  | nil => simp [lookup_nil]
  | cons kv rest ih =>
    by_cases h : kv.1 = k <;> simp [lookup_cons, h, ih]

theorem lookup_unionLeft {V : Type} (b : PyDict V) (a : PyDict V) (k : String) :
    lookup (a.map (fun kv => (kv.1, (lookup b kv.1).getD kv.2))) k =
      (lookup a k).map (fun v => (lookup b k).getD v) := by
  induction a with
  | nil => simp [lookup_nil]
  | cons kv rest ih =>
    by_cases h : kv.1 = k
    · subst h
      simp [lookup_cons]
    · simp [List.map_cons, lookup_cons, h, ih]

theorem lookup_unionRight {V : Type} (a : PyDict V) (b : PyDict V) (k : String) :
    lookup (b.filter (fun kv => (lookup a kv.1).isNone)) k =
      if (lookup a k).isNone then lookup b k else none := by
  induction b with
  | nil => simp [lookup_nil]
  | cons kv rest ih =>
    by_cases h : kv.1 = k
    · subst h
      by_cases hp : (lookup a kv.1).isNone <;>
        simp [List.filter_cons, hp, lookup_cons, ih]
    · by_cases hp : (lookup a kv.1).isNone <;>
        simp [List.filter_cons, hp, lookup_cons, h, ih]

/-- Lookup in a Python dict union: the right operand wins on shared keys. -/
theorem lookup_union {V : Type} (a b : PyDict V) (k : String) :
    lookup (union a b) k =
      match lookup a k, lookup b k with
      | some _, some vb => some vb
      | some va, none => some va
      | none, vb => vb := by
  unfold union
  rw [lookup_append, lookup_unionLeft, lookup_unionRight]
  cases ha : lookup a k <;> cases hb : lookup b k <;> simp [ha, hb, Option.or]

theorem lookup_set_self {V : Type} (d : PyDict V) (k : String) (v : V) :
    lookup (set d k v) k = some v := by
  induction d with
  | nil => simp [set, lookup_cons]
  | cons kv rest ih =>
    by_cases h : kv.1 = k <;> simp [set, h, lookup_cons, ih]

theorem lookup_set_ne {V : Type} (d : PyDict V) (k k' : String) (v : V)
    (h : k ≠ k') : lookup (set d k v) k' = lookup d k' := by
  induction d with
  | nil => simp [set, lookup_cons, lookup_nil, h]
  | cons kv rest ih =>
    by_cases hkv : kv.1 = k
    · subst hkv
      simp [set, lookup_cons, h]
    · simp [set, hkv, lookup_cons, ih]

theorem mem_keys_set {V : Type} (d : PyDict V) (k k' : String) (v : V) :
    k' ∈ keys (set d k v) ↔ k' ∈ keys d ∨ k' = k := by
  induction d with
  | nil => simp [set, keys]
  | cons kv rest ih =>
    by_cases h : kv.1 = k
    · subst h
      simp [set, keys]
      tauto
    · simp [set, h, keys] at ih ⊢
      tauto

theorem lookup_isSome_iff_mem_keys {V : Type} (d : PyDict V) (k : String) :
    (lookup d k).isSome ↔ k ∈ keys d := by
  induction d with
  | nil => simp [lookup_nil, keys]
  | cons kv rest ih =>
    by_cases h : kv.1 = k <;> simp [lookup_cons, h, keys] at ih ⊢ <;> tauto

theorem mem_of_mem_set {V : Type} (d : PyDict V) (k : String) (v : V)
    (kv : String × V) (h : kv ∈ set d k v) : kv = (k, v) ∨ kv ∈ d := by
  induction d with
  | nil => simpa [set] using h
  | cons hd rest ih =>
    by_cases hk : hd.1 = k
    · simp [set, hk] at h
      rcases h with h | h
      · left; simp [h]
      · right; simp [h]
    · simp [set, hk] at h
      rcases h with h | h
      · right; simp [h]
      · rcases ih h with h' | h'
        · left; exact h'
        · right; simp [h']

theorem mem_set_of_ne {V : Type} (d : PyDict V) (k k' : String) (v : V)
    (kv : String × V) (hmem : kv ∈ d) (hne : kv.1 ≠ k) : kv ∈ set d k v := by
  induction d with
  | nil => simp at hmem
  | cons hd rest ih =>
    by_cases hk : hd.1 = k
    · simp at hmem
      rcases hmem with h | h
      · exact absurd (h ▸ hk) hne
      · simp [set, hk, h]
    · simp at hmem
      rcases hmem with h | h
      · subst h
        simp [set, hk]
      · simp [set, hk]
        exact Or.inr (ih h)

theorem mem_of_mem_erase {V : Type} (d : PyDict V) (k : String)
    (kv : String × V) (h : kv ∈ erase d k) : kv ∈ d := by
  induction d with
  | nil => simpa [erase] using h
  | cons hd rest ih =>
    by_cases hk : hd.1 = k
    · simp [erase, hk] at h
      simp [h]
    · simp [erase, hk] at h
      rcases h with h | h
      · simp [h]
      · simp [ih h]

theorem mem_erase_of_ne {V : Type} (d : PyDict V) (k : String)
    (kv : String × V) (hmem : kv ∈ d) (hne : kv.1 ≠ k) : kv ∈ erase d k := by
  induction d with
  | nil => simp at hmem
  | cons hd rest ih =>
    by_cases hk : hd.1 = k
    · simp at hmem
      rcases hmem with h | h
      · exact absurd (h ▸ hk) hne
      · simp [erase, hk, h]
    · simp at hmem
      rcases hmem with h | h
      · subst h
        simp [erase, hk]
      · simp [erase, hk]
        exact Or.inr (ih h)

end PyDict

/-! ### Wiring: `_default_octave_port` (`components/wiring.py`)

A port is a `(controller_name, port_number)` pair.  The Python function
raises `ValueError` in two cases and otherwise returns `port_Q[1] // 2`;
for the positive divisor 2, Python `%` and `//` agree with Lean `Int`
modulus and division. -/

/-- An OPX port: `(controller_name, port_number)`, as in `wiring.py`. -/
abbrev OPXPort : Type := String × Int

/-- Embedding of `_default_octave_port(port_I, port_Q)`:
`ValueError` if the controllers differ; `ValueError` if `port_I` is not odd
or `port_Q ≠ port_I + 1`; otherwise `port_Q // 2`. -/
def defaultOctavePort (port_I port_Q : OPXPort) : Except String Int :=
  if port_I.1 ≠ port_Q.1 then
    .error "IQ channel ports must be on the same controller to use default octave wiring"
  else if port_I.2 % 2 ≠ 1 ∨ port_Q.2 ≠ port_I.2 + 1 then
    .error "IQ channel ports must be consecutive with port I on an odd-numbered port"
  else
    .ok (port_Q.2 / 2)

/-! ### Qubits: `ScQubit.thermalization_time` (`components/qubits.py`) -/

/-- The fields of `ScQubit` that `thermalization_time` reads: `T1` (default
`None`) and `thermalization_time_factor` (default 5). -/
structure ScQubit where
  T1 : Option Int := none
  thermalization_time_factor : Int := 5

/-- Embedding of the `ScQubit.thermalization_time` property: raise
`ValueError` when `T1` is `None`, otherwise return
`thermalization_time_factor * T1`. -/
def ScQubit.thermalization_time (q : ScQubit) : Except String Int :=
  match q.T1 with
  | none => .error "Error: T1 not specified for qubit. Please provide a value to enable thermalization time."
  | some t => .ok (q.thermalization_time_factor * t)

/-- Claim C3: `_default_octave_port` returns `(port_I_number + 1) / 2` —
so (1,2)↦1, (3,4)↦2, (5,6)↦3, (7,8)↦4, (9,10)↦5 — when both ports are on
the same controller, the I port number is odd and the Q port number is
I + 1; and it raises `ValueError` exactly when the controllers differ or
the port numbers are not consecutive with the I port odd. -/
theorem defaultOctavePort_spec (cI cQ : String) (i q : Int) :
    ((cI = cQ ∧ i % 2 = 1 ∧ q = i + 1) →
        defaultOctavePort (cI, i) (cQ, q) = .ok ((i + 1) / 2)) ∧
      ((∃ msg, defaultOctavePort (cI, i) (cQ, q) = .error msg) ↔
        (cI ≠ cQ ∨ i % 2 ≠ 1 ∨ q ≠ i + 1)) := by
  constructor
  · rintro ⟨hc, hodd, hq⟩
    simp [defaultOctavePort, hc, hodd, hq]
  · constructor
    · rintro ⟨msg, hmsg⟩
      by_contra hcon
      push_neg at hcon
      obtain ⟨hc, hodd, hq⟩ := hcon
      simp [defaultOctavePort, hc, hodd, hq] at hmsg
    · intro h
      unfold defaultOctavePort
      by_cases hc : cI = cQ
      · have hrest : i % 2 ≠ 1 ∨ q ≠ i + 1 := by tauto
        exact ⟨"IQ channel ports must be consecutive with port I on an odd-numbered port",
          by simp [hc, hrest] <;> tauto⟩
      · exact ⟨"IQ channel ports must be on the same controller to use default octave wiring",
          by simp [hc]⟩

/-- Witness for C3: at controller `con1` with ports (3, 4) the function
returns octave port 2, and with ports (2, 3) (even I port) it errors. -/
theorem defaultOctavePort_spec_witness :
    defaultOctavePort ("con1", 3) ("con1", 4) = .ok 2 ∧
      (∃ msg, defaultOctavePort ("con1", 2) ("con1", 3) = .error msg) := by
  constructor
  · exact (defaultOctavePort_spec "con1" "con1" 3 4).1 (by decide)
  · exact ((defaultOctavePort_spec "con1" "con1" 2 3).2).2 (by decide)

/-- Claim C10: `_default_octave_port` enforces no upper bound on port
numbers: for every controller `c` and every odd `i ≥ 1`, the pair
`((c, i), (c, i + 1))` returns `(i + 1) / 2` without error; in particular
ports (11, 12) yield octave port 6 rather than raising. -/
theorem defaultOctavePort_no_upper_bound (c : String) (i : Int)
    (hodd : i % 2 = 1) (hpos : 1 ≤ i) :
    defaultOctavePort (c, i) (c, i + 1) = .ok ((i + 1) / 2) := by
  simp [defaultOctavePort, hodd]

/-- Witness for C10: ports (11, 12) on one controller give octave port 6. -/
theorem defaultOctavePort_no_upper_bound_witness :
    (11 : Int) % 2 = 1 ∧ (1 : Int) ≤ 11 ∧
      defaultOctavePort ("con1", 11) ("con1", 12) = .ok 6 :=
  ⟨by decide, by decide,
    defaultOctavePort_no_upper_bound "con1" 11 (by decide) (by decide)⟩

/-- Claim C8: reading `ScQubit.thermalization_time` raises a `ValueError`
(immediately — the embedding is a pure function of the qubit, with no retry
or state change) if and only if `T1` is unset, and otherwise returns
`thermalization_time_factor * T1`. -/
theorem thermalization_time_spec (qb : ScQubit) :
    ((∃ msg, qb.thermalization_time = .error msg) ↔ qb.T1 = none) ∧
      (∀ t, qb.T1 = some t →
        qb.thermalization_time = .ok (qb.thermalization_time_factor * t)) := by
  constructor
  · cases h : qb.T1 <;> simp [ScQubit.thermalization_time, h]
  · intro t ht
    simp [ScQubit.thermalization_time, ht]

/-- Witness for C8: with `T1` unset the property errors, and with
`T1 = 50` and the default factor 5 it returns 250. -/
theorem thermalization_time_spec_witness :
    ((∃ msg, ScQubit.thermalization_time ⟨none, 5⟩ = .error msg) ↔
      (⟨none, 5⟩ : ScQubit).T1 = none) ∧
      ScQubit.thermalization_time ⟨some 50, 5⟩ = .ok (5 * 50) :=
  ⟨(thermalization_time_spec ⟨none, 5⟩).1,
    (thermalization_time_spec ⟨some 50, 5⟩).2 50 rfl⟩

/-! ### Pulse sets: `PulseSet.add_drive_pulses` (`components/pulse_sets.py`)

A pulse value is embedded as the parameter dictionary handed to the `Pulse`
constructor (`self.Pulse(**parameters)`); parameter values are left abstract
in a type `V`.  The method first loops over the keys of
`individual_pulse_parameters`, raising `ValueError` for any key that is not
a declared gate, and then loops over `gates`, storing
`individual_pulse_parameters[pulse] | shared_pulse_parameters` (a `KeyError`
if a gate has no individual entry) under the operation key
`f"{pulse}_{self.pulse_name}"`.  The embedding returns the final state of
`channel.operations` together with the exception, if any, so that partial
mutation on error is observable. -/

/-- The exceptions `add_drive_pulses` can raise, with the offending key. -/
inductive PyError where
  | valueError (gate : String)
  | keyError (gate : String)
deriving DecidableEq

/-- The fields of `PulseSet` that `add_drive_pulses` reads.  `pulse_name`
defaults in the source to the pulse set's id, i.e. its key in the parent
dict (`"#./_name_from_parent_dict"`).  The abstract properties
`individual_pulse_parameters` (a dict from gate name to a parameter dict)
and `shared_pulse_parameters` are embedded as data. -/
structure PulseSet (V : Type) where
  gates : List String
  pulse_name : String
  individual_pulse_parameters : PyDict (PyDict V)
  shared_pulse_parameters : PyDict V

/-- The first key of `individual_pulse_parameters` that is not a declared
gate — the key whose validation loop iteration raises `ValueError`. -/
def PulseSet.firstBadGate {V : Type} (ps : PulseSet V) : Option String :=
  (PyDict.keys ps.individual_pulse_parameters).find? (fun g => ¬ g ∈ ps.gates)

/-- The parameter dictionary passed to the `Pulse` constructor for a gate:
`individual_pulse_parameters[gate] | shared_pulse_parameters`
(`none` embeds the `KeyError` on a missing individual entry). -/
def PulseSet.drive_pulse_parameters {V : Type} (ps : PulseSet V) (gate : String) :
    Option (PyDict V) :=
  (PyDict.lookup ps.individual_pulse_parameters gate).map
    (fun ip => PyDict.union ip ps.shared_pulse_parameters)

/-- The second loop of `add_drive_pulses`: for each gate in order, build the
parameter dict and store it under `f"{pulse}_{pulse_name}"` in the channel's
operations; a missing individual entry raises `KeyError`, leaving the
operations inserted so far in place. -/
def PulseSet.addPulsesLoop {V : Type} (ps : PulseSet V) :
    List String → PyDict (PyDict V) → PyDict (PyDict V) × Option PyError
  | [], ops => (ops, none)
  | g :: rest, ops =>
    match ps.drive_pulse_parameters g with
    | none => (ops, some (.keyError g))
    | some params =>
      ps.addPulsesLoop rest (PyDict.set ops (g ++ "_" ++ ps.pulse_name) params)

/-- Embedding of `PulseSet.add_drive_pulses`, returning the final state of
`channel.operations` together with the raised exception, if any. -/
def PulseSet.add_drive_pulses {V : Type} (ps : PulseSet V)
    (ops : PyDict (PyDict V)) : PyDict (PyDict V) × Option PyError :=
  match ps.firstBadGate with
  | some g => (ops, some (.valueError g))
  | none => ps.addPulsesLoop ps.gates ops

/-- The gate-expansion loop can only raise `KeyError`, never `ValueError`. -/
theorem addPulsesLoop_error_keyError {V : Type} (ps : PulseSet V)
    (gs : List String) (ops : PyDict (PyDict V)) (e : PyError)
    (h : (ps.addPulsesLoop gs ops).2 = some e) : ∃ g, e = .keyError g := by
  induction gs generalizing ops with
  | nil => simp [PulseSet.addPulsesLoop] at h
  | cons g rest ih =>
    unfold PulseSet.addPulsesLoop at h
    cases hp : ps.drive_pulse_parameters g with
    | none =>
      simp [hp] at h
      exact ⟨g, h.symm⟩
    | some params =>
      simp [hp] at h
      exact ih _ h

/-- The function `firstBadGate` is `some` exactly when some individual-parameter key is
not a declared gate. -/
theorem firstBadGate_isSome_iff {V : Type} (ps : PulseSet V) :
    (∃ g, ps.firstBadGate = some g) ↔
      ∃ g ∈ PyDict.keys ps.individual_pulse_parameters, g ∉ ps.gates := by
  constructor
  · rintro ⟨g, hg⟩
    refine ⟨g, List.mem_of_find?_eq_some hg, ?_⟩
    have := List.find?_some hg
    simpa using this
  · rintro ⟨g, hmem, hnot⟩
    have : ((PyDict.keys ps.individual_pulse_parameters).find?
        (fun g => ¬ g ∈ ps.gates)).isSome := by
      rw [List.find?_isSome]
      exact ⟨g, hmem, by simpa using hnot⟩
    rcases Option.isSome_iff_exists.mp this with ⟨g', hg'⟩
    exact ⟨g', hg'⟩

/-- Claim C5: `add_drive_pulses` raises `ValueError` if and only if some
key of `individual_pulse_parameters` is not a member of the declared gate
set `gates`; when the key set is a subset of the gates, no `ValueError` is
raised. -/
theorem add_drive_pulses_valueError_iff {V : Type} (ps : PulseSet V)
    (ops : PyDict (PyDict V)) :
    (∃ g, (ps.add_drive_pulses ops).2 = some (.valueError g)) ↔
      ∃ g ∈ PyDict.keys ps.individual_pulse_parameters, g ∉ ps.gates := by
  constructor
  · rintro ⟨g, hg⟩
    unfold PulseSet.add_drive_pulses at hg
    cases hb : ps.firstBadGate with
    | some bad =>
      exact (firstBadGate_isSome_iff ps).mp ⟨bad, hb⟩
    | none =>
      simp [hb] at hg
      rcases addPulsesLoop_error_keyError ps ps.gates ops _ hg with ⟨g', hg'⟩
      simp at hg'
  · intro h
    rcases (firstBadGate_isSome_iff ps).mpr h with ⟨g, hg⟩
    exact ⟨g, by simp [PulseSet.add_drive_pulses, hg]⟩

/-- Claim C9: `add_drive_pulses` is atomic on the validation error: when it
raises the `ValueError` for an `individual_pulse_parameters` key that is
not a declared gate, the channel's operations are exactly as before the
call — the validation loop completes before any pulse is inserted. -/
theorem add_drive_pulses_atomic_on_valueError {V : Type} (ps : PulseSet V)
    (ops : PyDict (PyDict V)) (g : String)
    (h : (ps.add_drive_pulses ops).2 = some (.valueError g)) :
    (ps.add_drive_pulses ops).1 = ops := by
  unfold PulseSet.add_drive_pulses at h ⊢
  cases hb : ps.firstBadGate with
  | some bad => simp [hb]
  | none =>
    simp [hb] at h
    rcases addPulsesLoop_error_keyError ps ps.gates ops _ h with ⟨g', hg'⟩
    simp at hg'

/-- Keys after a successful expansion loop: the starting keys plus one key
`f"{g}_{pulse_name}"` per processed gate. -/
theorem addPulsesLoop_keys {V : Type} (ps : PulseSet V) (gs : List String)
    (ops : PyDict (PyDict V)) (h : (ps.addPulsesLoop gs ops).2 = none)
    (k : String) :
    k ∈ PyDict.keys (ps.addPulsesLoop gs ops).1 ↔
      k ∈ PyDict.keys ops ∨ ∃ g ∈ gs, k = g ++ "_" ++ ps.pulse_name := by
  induction gs generalizing ops with
  | nil => simp [PulseSet.addPulsesLoop]
  | cons g rest ih =>
    unfold PulseSet.addPulsesLoop at h ⊢
    cases hp : ps.drive_pulse_parameters g with
    | none => simp [hp] at h
    | some params =>
      simp only [hp] at h ⊢
      rw [ih _ h, PyDict.mem_keys_set]
      simp only [List.mem_cons]
      constructor
      · rintro ((hk | hk) | ⟨g', hg', hk⟩)
        · exact Or.inl hk
        · exact Or.inr ⟨g, Or.inl rfl, hk⟩
        · exact Or.inr ⟨g', Or.inr hg', hk⟩
      · rintro (hk | ⟨g', (hg' | hg'), hk⟩)
        · exact Or.inl (Or.inl hk)
        · exact Or.inl (Or.inr (hg' ▸ hk))
        · exact Or.inr ⟨g', hg', hk⟩

/-- Claim C4: when `add_drive_pulses` succeeds, the channel's operations
afterwards hold exactly one pulse per declared gate, registered under the
key `f"{gate}_{pulse_name}"` (where `pulse_name` defaults to the pulse
set's id): an operation key is present afterwards exactly when it was
present before or is the key of a declared gate, so no declared gate is
missing and no extra gate operation is produced. -/
theorem add_drive_pulses_gate_keys {V : Type} (ps : PulseSet V)
    (ops : PyDict (PyDict V)) (h : (ps.add_drive_pulses ops).2 = none)
    (k : String) :
    (PyDict.lookup (ps.add_drive_pulses ops).1 k).isSome ↔
      ((PyDict.lookup ops k).isSome ∨
        ∃ g ∈ ps.gates, k = g ++ "_" ++ ps.pulse_name) := by
  rw [PyDict.lookup_isSome_iff_mem_keys, PyDict.lookup_isSome_iff_mem_keys]
  unfold PulseSet.add_drive_pulses at h ⊢
  cases hb : ps.firstBadGate with
  | some bad => simp [hb] at h
  | none =>
    simp only [hb] at h ⊢
    exact addPulsesLoop_keys ps ps.gates ops h k

/-- A concrete DRAG-Gaussian-style pulse set used as a witness input:
two gates, each with an individual parameter dict, and a shared dict. -/
def psDrag : PulseSet Int :=
  ⟨["x90", "y90"], "drag",
    [("x90", [("amplitude", 1)]), ("y90", [("amplitude", 2)])],
    [("length", 20), ("sigma", 4)]⟩

/-- Witness for C4: expanding `psDrag` on an empty operations dict
succeeds, and the key `"x90_drag"` is afterwards present exactly as the
theorem states. -/
theorem add_drive_pulses_gate_keys_witness :
    (psDrag.add_drive_pulses []).2 = none ∧
      ((PyDict.lookup (psDrag.add_drive_pulses []).1 "x90_drag").isSome ↔
        ((PyDict.lookup ([] : PyDict (PyDict Int)) "x90_drag").isSome ∨
          ∃ g ∈ psDrag.gates, "x90_drag" = g ++ "_" ++ psDrag.pulse_name)) :=
  ⟨by decide, add_drive_pulses_gate_keys psDrag [] (by decide) "x90_drag"⟩

/-- A pulse set whose individual parameters mention a key `"zz"` that is
not a declared gate, so that validation raises `ValueError`. -/
def psBad : PulseSet Int :=
  ⟨["x90"], "drag", [("zz", [("amplitude", 1)])], [("length", 20)]⟩

/-- Witness for C9: on `psBad` the call raises the validation `ValueError`
and leaves a non-empty starting operations dict unchanged. -/
theorem add_drive_pulses_atomic_on_valueError_witness :
    (psBad.add_drive_pulses [("old", [("length", 7)])]).2 =
        some (.valueError "zz") ∧
      (psBad.add_drive_pulses [("old", [("length", 7)])]).1 =
        [("old", [("length", 7)])] :=
  ⟨by decide,
    add_drive_pulses_atomic_on_valueError psBad [("old", [("length", 7)])]
      "zz" (by decide)⟩

/-- A pulse set in which the same parameter key `"length"` appears both in
the individual parameters of gate `"x90"` and in the shared parameters,
with different values. -/
def psConflict : PulseSet Int :=
  ⟨["x90"], "drag", [("x90", [("length", 1)])], [("length", 2)]⟩

/-- Counterexample to claim C1: in `psConflict` the individual parameters
of gate `"x90"` set `"length"` to 1 and the shared parameters set it to 2;
the parameter dictionary passed to the `Pulse` constructor maps `"length"`
to the SHARED value 2, not the individual value 1 — Python's
`individual | shared` lets the right-hand (shared) operand win. -/
theorem individual_params_overridden_counterexample :
    PyDict.lookup psConflict.individual_pulse_parameters "x90" =
        some [("length", 1)] ∧
      PyDict.lookup (psConflict.shared_pulse_parameters) "length" = some 2 ∧
      psConflict.drive_pulse_parameters "x90" = some [("length", 2)] ∧
      ((1 : Int) ≠ 2) := by
  refine ⟨by decide, by decide, by decide, by decide⟩

/-- Claim C1 as amended: for every gate with an entry in
`individual_pulse_parameters` and every parameter key present in both that
entry and `shared_pulse_parameters`, the parameter dictionary passed to the
`Pulse` constructor maps the key to the SHARED value: shared values
override individual ones with the same key, because the merge
`individual | shared` puts the shared dict on the right. -/
theorem shared_params_override_individual {V : Type} (ps : PulseSet V)
    (g k : String) (ip : PyDict V) (vI vS : V)
    (hg : PyDict.lookup ps.individual_pulse_parameters g = some ip)
    (hik : PyDict.lookup ip k = some vI)
    (hsk : PyDict.lookup ps.shared_pulse_parameters k = some vS) :
    ps.drive_pulse_parameters g =
        some (PyDict.union ip ps.shared_pulse_parameters) ∧
      PyDict.lookup (PyDict.union ip ps.shared_pulse_parameters) k = some vS := by
  refine ⟨by simp [PulseSet.drive_pulse_parameters, hg], ?_⟩
  rw [PyDict.lookup_union, hik, hsk]

/-- Witness for the amended C1: on `psConflict`, gate `"x90"`, key
`"length"`, the constructor parameters map `"length"` to the shared
value 2. -/
theorem shared_params_override_individual_witness :
    psConflict.drive_pulse_parameters "x90" =
        some (PyDict.union [("length", 1)] psConflict.shared_pulse_parameters) ∧
      PyDict.lookup
        (PyDict.union [("length", 1)] psConflict.shared_pulse_parameters)
        "length" = some 2 :=
  shared_params_override_individual psConflict "x90" "length"
    [("length", 1)] 1 2 (by decide) (by decide) (by decide)

/-- Witness-style instance for C5 (the claim theorem itself has no
hypotheses, but the instance shows both directions are inhabited):
`psBad` has the bad key `"zz"`, and the call indeed reports it. -/
theorem add_drive_pulses_valueError_iff_witness :
    (∃ g, (psBad.add_drive_pulses []).2 = some (.valueError g)) ↔
      ∃ g ∈ PyDict.keys psBad.individual_pulse_parameters, g ∉ psBad.gates :=
  add_drive_pulses_valueError_iff psBad []

/-! ### Roots: the lazily cached `SQuIDRoot1.qm` (`components/roots.py`)

The `qm` property reads the cache `_qm`; when it is `None` it calls
`self.qmm.open_qm(self.config)` and stores the result, otherwise it returns
the cached machine.  Although `_qm` is annotated `ClassVar`, the assignment
`self._qm = ...` creates an instance attribute in Python, so the cache is
per object.  The external `QuantumMachinesManager.open_qm` call is embedded
as an abstract effect on a world that counts how many connections have been
opened and hands out fresh machine ids. -/

/-- The per-object state of a `SQuIDRoot1`: the `_qm` cache (a machine id,
or `None` before the first access). -/
structure SQuIDRoot1 where
  qmCache : Option Nat := none

/-- The external service: `openCount` connections opened so far, `nextId`
the id of the machine the next `open_qm` call returns. -/
structure QMWorld where
  openCount : Nat
  nextId : Nat

/-- The external `qmm.open_qm(config)` call: opens one more connection and
returns a fresh machine. -/
def QMWorld.open_qm (w : QMWorld) : Nat × QMWorld :=
  (w.nextId, ⟨w.openCount + 1, w.nextId + 1⟩)

/-- Embedding of the `SQuIDRoot1.qm` property: if `_qm` is `None`, open a
machine and cache it; otherwise return the cached machine.  Returns the
machine, the new object state and the new world. -/
def SQuIDRoot1.qm (s : SQuIDRoot1) (w : QMWorld) : Nat × SQuIDRoot1 × QMWorld :=
  match s.qmCache with
  | some m => (m, s, w)
  | none =>
    let (m, w') := w.open_qm
    (m, ⟨some m⟩, w')

/-- Claim C6: the connection is opened at most once per root object and
then cached.  (1) A first access on a fresh root opens exactly one
connection and caches the machine it returns; (2) an access after any
access returns the same machine and changes neither the object nor the
world — no second open; (3) two distinct fresh root objects accessed in
sequence open two connections and cache distinct machines, each its own. -/
theorem qm_opened_once_per_root (s : SQuIDRoot1) (w : QMWorld) :
    ((SQuIDRoot1.qm ⟨none⟩ w).2.2.openCount = w.openCount + 1 ∧
      (SQuIDRoot1.qm ⟨none⟩ w).2.1.qmCache = some (SQuIDRoot1.qm ⟨none⟩ w).1) ∧
      (SQuIDRoot1.qm (s.qm w).2.1 (s.qm w).2.2 = ((s.qm w).1, (s.qm w).2.1, (s.qm w).2.2)) ∧
      ((SQuIDRoot1.qm ⟨none⟩ (SQuIDRoot1.qm ⟨none⟩ w).2.2).1 ≠ (SQuIDRoot1.qm ⟨none⟩ w).1 ∧
        (SQuIDRoot1.qm ⟨none⟩ (SQuIDRoot1.qm ⟨none⟩ w).2.2).2.2.openCount = w.openCount + 2) := by
  refine ⟨⟨rfl, rfl⟩, ?_, by simp [SQuIDRoot1.qm, QMWorld.open_qm], by simp [SQuIDRoot1.qm, QMWorld.open_qm]⟩
  cases h : s.qmCache with
  | some m => simp [SQuIDRoot1.qm, h]
  | none => simp [SQuIDRoot1.qm, h, QMWorld.open_qm]

/-! ### Utils: `key_from_parent_dict` (`utils.py`)

A component's parent is a dict (mapping string keys to components), a list,
another component, or absent.  Components are identified by ids (`Nat`); the
Python comparison `value == component` is id equality.  The function raises
`ValueError` when the parent is not a dict and when no key maps to the
component; otherwise it returns the first key whose value is the
component. -/

/-- The parent of a component, as `key_from_parent_dict` distinguishes it. -/
inductive Parent where
  | dict (entries : PyDict Nat)
  | list (entries : List Nat)
  | component
  | noParent

/-- Embedding of `key_from_parent_dict(component)` for a component with id
`c` and the given parent. -/
def key_from_parent_dict (c : Nat) (p : Parent) : Except String String :=
  match p with
  | .dict es =>
    match es.find? (fun kv => kv.2 = c) with
    | some kv => .ok kv.1
    | none => .error "Could not find key for component, parent is not a dict."
  | _ => .error "Could not find key for component, parent is not a dict."

/-- If the dict has an entry `(k, c)` and no other key maps to `c`, the
first entry whose value is `c` is found and its key is `k`. -/
theorem key_from_parent_dict_of_unique (es : PyDict Nat) (c : Nat) (k : String)
    (hmem : (k, c) ∈ es) (huniq : ∀ kv ∈ es, kv.2 = c → kv.1 = k) :
    key_from_parent_dict c (.dict es) = .ok k := by
  have hsome : (es.find? (fun kv => kv.2 = c)).isSome := by
    rw [List.find?_isSome]
    exact ⟨(k, c), hmem, by simp⟩
  rcases Option.isSome_iff_exists.mp hsome with ⟨kv, hkv⟩
  have hval : kv.2 = c := by simpa using List.find?_some hkv
  have hkey : kv.1 = k := huniq kv (List.mem_of_find?_eq_some hkv) hval
  simp [key_from_parent_dict, hkv, hkey]

/-- Claim C7: for a component stored (under exactly one key) as the value
of key `k` in its parent dict, `key_from_parent_dict` returns `k`; the
result is unchanged by inserting a sibling entry (any other key, any value
other than the component) or by removing a sibling entry; and for a
component whose parent is not a dict (a list, a plain component, or no
parent at all) it raises `ValueError`. -/
theorem key_from_parent_dict_spec (es : PyDict Nat) (c : Nat) (k : String)
    (hmem : (k, c) ∈ es) (huniq : ∀ kv ∈ es, kv.2 = c → kv.1 = k) :
    key_from_parent_dict c (.dict es) = .ok k ∧
      (∀ k' v', k' ≠ k → v' ≠ c →
        key_from_parent_dict c (.dict (PyDict.set es k' v')) = .ok k) ∧
      (∀ k', k' ≠ k →
        key_from_parent_dict c (.dict (PyDict.erase es k')) = .ok k) ∧
      ((∀ l, ∃ msg, key_from_parent_dict c (.list l) = .error msg) ∧
        (∃ msg, key_from_parent_dict c .component = .error msg) ∧
        (∃ msg, key_from_parent_dict c .noParent = .error msg)) := by
  refine ⟨key_from_parent_dict_of_unique es c k hmem huniq, ?_, ?_,
    fun l => ⟨_, rfl⟩, ⟨_, rfl⟩, ⟨_, rfl⟩⟩
  · intro k' v' hk' hv'
    apply key_from_parent_dict_of_unique
    · exact PyDict.mem_set_of_ne es k' k v' (k, c) hmem (by simpa using hk'.symm)
    · intro kv hkv hval
      rcases PyDict.mem_of_mem_set es k' v' kv hkv with h | h
      · exact absurd (by simpa [h] using hval) hv'
      · exact huniq kv h hval
  · intro k' hk'
    apply key_from_parent_dict_of_unique
    · exact PyDict.mem_erase_of_ne es k' (k, c) hmem (by simpa using hk'.symm)
    · intro kv hkv hval
      exact huniq kv (PyDict.mem_of_mem_erase es k' kv hkv) hval

/-- Witness for C7: the dict `{"q1": 1, "q2": 2}` with component 1 under
key `"q1"`; inserting the sibling `"q3" := 3` and removing `"q2"` leave the
answer `"q1"`, and a list parent errors. -/
theorem key_from_parent_dict_spec_witness :
    key_from_parent_dict 1 (.dict [("q1", 1), ("q2", 2)]) = .ok "q1" ∧
      key_from_parent_dict 1
        (.dict (PyDict.set [("q1", 1), ("q2", 2)] "q3" 3)) = .ok "q1" ∧
      key_from_parent_dict 1
        (.dict (PyDict.erase [("q1", 1), ("q2", 2)] "q2")) = .ok "q1" ∧
      ∃ msg, key_from_parent_dict 1 (.list [1, 2]) = .error msg := by
  have h := key_from_parent_dict_spec [("q1", 1), ("q2", 2)] 1 "q1"
    (by decide) (by decide)
  exact ⟨h.1, h.2.1 "q3" 3 (by decide) (by decide),
    h.2.2.1 "q2" (by decide), h.2.2.2.1 [1, 2]⟩

/-! ### Octave converters: OPX-port discovery (`components/octave.py`)

`OctaveUpConverterSQuID.find_opx_outputs` iterates the root's components,
skips non-`IQChannel`s, and RETURNS the `(opx_output_I, opx_output_Q)` pair
of the first channel whose `frequency_converter_up` is this converter; if
no channel matches, the loop falls through and the method returns Python
`None` — it raises nothing (the raising variant in the source is commented
out).  Converters are identified by ids; the Python comparison
`component.frequency_converter_up == self` is id equality.

`OctaveDownConverterSQuID.find_opx_inputs` is defined twice; Python keeps
the second definition.  It iterates every component and every attribute
value (`get_attrs().values()`), and whenever a value equals
`self.get_reference()` it records the component's `opx_input_I` /
`opx_input_Q`, raising `ValueError` if a previously recorded port differs;
after the scan it raises `ValueError` if either port was never recorded.
Components are embedded with their string-valued attributes (the potential
references) and their OPX input ports. -/

/-- The fields of an `IQChannel` that `find_opx_outputs` reads. -/
structure IQChannel where
  frequency_converter_up : Option String
  opx_output_I : OPXPort
  opx_output_Q : OPXPort
deriving DecidableEq

/-- A node of the component tree as seen by `find_opx_outputs`: an
`IQChannel` or any other component (skipped by the `isinstance` check). -/
inductive UpComponent where
  | iqChannel (c : IQChannel)
  | other
deriving DecidableEq

/-- Embedding of `OctaveUpConverterSQuID.find_opx_outputs` for the
converter with id `selfId` over the components of the tree in iteration
order: the port pair of the first matching `IQChannel`, or Python `None`
when the loop falls through. -/
def find_opx_outputs (selfId : String) : List UpComponent → Option (OPXPort × OPXPort)
  | [] => none
  | .other :: rest => find_opx_outputs selfId rest
  | .iqChannel c :: rest =>
    if c.frequency_converter_up = some selfId then
      some (c.opx_output_I, c.opx_output_Q)
    else
      find_opx_outputs selfId rest

/-- Whether a component is an `IQChannel` whose up converter is `selfId`. -/
def upMatches (selfId : String) : UpComponent → Prop
  | .iqChannel c => c.frequency_converter_up = some selfId
  | .other => False

instance (selfId : String) (comp : UpComponent) : Decidable (upMatches selfId comp) := by
  cases comp with
  | iqChannel c => exact inferInstanceAs (Decidable (c.frequency_converter_up = some selfId))
  | other => exact inferInstanceAs (Decidable False)

/-- The errors `find_opx_inputs` can raise: a converter referenced with
conflicting port assignments, or referenced by no component. -/
inductive FindErr where
  | multiple
  | notConnected
deriving DecidableEq

/-- A component as seen by `find_opx_inputs`: its string-valued attribute
values (the candidate references) and its OPX input ports. -/
structure DownComponent where
  attrs : List String
  opx_input_I : OPXPort
  opx_input_Q : OPXPort
deriving DecidableEq

/-- One `if/elif` step of the recording loop: record the port if none is
recorded, keep it if it agrees, raise `ValueError` if it differs. -/
def updatePort (cur : Option OPXPort) (p : OPXPort) : Except FindErr (Option OPXPort) :=
  match cur with
  | none => .ok (some p)
  | some q => if q ≠ p then .error .multiple else .ok (some q)

/-- The scan state: the recorded I port and Q port, if any. -/
abbrev ScanState : Type := Option OPXPort × Option OPXPort

/-- The inner loop over one component's attribute values: every value equal
to the converter's reference records the component's I and Q ports. -/
def scanAttrs (ref : String) (c : DownComponent) :
    List String → ScanState → Except FindErr ScanState
  | [], st => .ok st
  | a :: rest, st =>
    if a = ref then
      match updatePort st.1 c.opx_input_I with
      | .error e => .error e
      | .ok i' =>
        match updatePort st.2 c.opx_input_Q with
        | .error e => .error e
        | .ok q' => scanAttrs ref c rest (i', q')
    else
      scanAttrs ref c rest st

/-- The outer loop over all components of the tree. -/
def scanComponents (ref : String) :
    List DownComponent → ScanState → Except FindErr ScanState
  | [], st => .ok st
  | c :: rest, st =>
    match scanAttrs ref c c.attrs st with
    | .error e => .error e
    | .ok st' => scanComponents ref rest st'

/-- Embedding of `OctaveDownConverterSQuID.find_opx_inputs` (the second,
effective definition) for the converter with reference `ref`: scan every
component's attributes, then fail unless both ports were recorded. -/
def find_opx_inputs (ref : String) (cs : List DownComponent) :
    Except FindErr (OPXPort × OPXPort) :=
  match scanComponents ref cs (none, none) with
  | .error e => .error e
  | .ok (some i, some q) => .ok (i, q)
  | .ok _ => .error .notConnected

/-- The scan `find_opx_outputs` ignores components that do not match. -/
theorem find_opx_outputs_no_match (selfId : String) (cs : List UpComponent)
    (h : ∀ comp ∈ cs, ¬ upMatches selfId comp) :
    find_opx_outputs selfId cs = none := by
  induction cs with
  | nil => rfl
  | cons comp rest ih =>
    have hrest : ∀ c ∈ rest, ¬ upMatches selfId c := fun c hc => h c (by simp [hc])
    cases comp with
    | other => simpa [find_opx_outputs] using ih hrest
    | iqChannel c =>
      have : ¬ c.frequency_converter_up = some selfId := h (.iqChannel c) (by simp)
      simpa [find_opx_outputs, this] using ih hrest

/-- The scan `find_opx_outputs` returns the ports of the first matching channel. -/
theorem find_opx_outputs_first_match (selfId : String) (pre post : List UpComponent)
    (c : IQChannel) (hpre : ∀ comp ∈ pre, ¬ upMatches selfId comp)
    (hc : c.frequency_converter_up = some selfId) :
    find_opx_outputs selfId (pre ++ .iqChannel c :: post) =
      some (c.opx_output_I, c.opx_output_Q) := by
  induction pre with
  | nil => simp [find_opx_outputs, hc]
  | cons comp rest ih =>
    have hrest : ∀ c' ∈ rest, ¬ upMatches selfId c' :=
      fun c' hc' => hpre c' (by simp [hc'])
    cases comp with
    | other => simpa [find_opx_outputs] using ih hrest
    | iqChannel c' =>
      have : ¬ c'.frequency_converter_up = some selfId := hpre (.iqChannel c') (by simp)
      simpa [find_opx_outputs, this] using ih hrest

/-- A successful `updatePort` records exactly the offered port. -/
theorem updatePort_ok (cur : Option OPXPort) (p : OPXPort) (r : Option OPXPort)
    (h : updatePort cur p = .ok r) : r = some p := by
  cases cur with
  | none => simpa [updatePort] using h.symm
  | some q =>
    by_cases hq : q ≠ p
    · simp [updatePort, hq] at h
    · push_neg at hq
      simp [updatePort, hq] at h
      simp [← h, hq]

/-- A recorded port is never overwritten by a successful `updatePort`. -/
theorem updatePort_mono (q : OPXPort) (p : OPXPort) (r : Option OPXPort)
    (h : updatePort (some q) p = .ok r) : r = some q := by
  by_cases hq : q ≠ p
  · simp [updatePort, hq] at h
  · simp [updatePort, hq] at h
    exact h.symm

/-- A failing `updatePort` reports the multiple-connection error. -/
theorem updatePort_error (cur : Option OPXPort) (p : OPXPort) (e : FindErr)
    (h : updatePort cur p = .error e) : e = .multiple := by
  cases cur with
  | none => simp [updatePort] at h
  | some q =>
    by_cases hq : q ≠ p
    · simp [updatePort, hq] at h
      exact h.symm
    · simp [updatePort, hq] at h

/-- The attribute loop only raises the multiple-connection error. -/
theorem scanAttrs_error (ref : String) (c : DownComponent) (l : List String)
    (st : ScanState) (e : FindErr) (h : scanAttrs ref c l st = .error e) :
    e = .multiple := by
  induction l generalizing st with
  | nil => simp [scanAttrs] at h
  | cons a rest ih =>
    unfold scanAttrs at h
    by_cases ha : a = ref
    · simp only [ha, if_pos rfl] at h
      cases hI : updatePort st.1 c.opx_input_I with
      | error eI =>
        simp [hI] at h
        exact h ▸ updatePort_error st.1 _ eI hI
      | ok i' =>
        simp only [hI] at h
        cases hQ : updatePort st.2 c.opx_input_Q with
        | error eQ =>
          simp [hQ] at h
          exact h ▸ updatePort_error st.2 _ eQ hQ
        | ok q' =>
          simp only [hQ] at h
          exact ih _ h
    · simp only [if_neg ha] at h
      exact ih _ h

/-- The component loop only raises the multiple-connection error. -/
theorem scanComponents_error (ref : String) (cs : List DownComponent)
    (st : ScanState) (e : FindErr) (h : scanComponents ref cs st = .error e) :
    e = .multiple := by
  induction cs generalizing st with
  | nil => simp [scanComponents] at h
  | cons c rest ih =>
    unfold scanComponents at h
    cases hc : scanAttrs ref c c.attrs st with
    | error e' =>
      simp [hc] at h
      exact h ▸ scanAttrs_error ref c c.attrs st e' hc
    | ok st' =>
      simp only [hc] at h
      exact ih _ h

/-- A component none of whose attribute values is the reference leaves the
scan state untouched. -/
theorem scanAttrs_no_match (ref : String) (c : DownComponent) (l : List String)
    (st : ScanState) (h : ref ∉ l) : scanAttrs ref c l st = .ok st := by
  induction l with
  | nil => rfl
  | cons a rest ih =>
    have ha : a ≠ ref := fun hEq => h (by simp [hEq])
    have hrest : ref ∉ rest := fun hr => h (by simp [hr])
    simp [scanAttrs, ha, ih hrest]

/-- Once recorded, a port survives a successful attribute loop unchanged. -/
theorem scanAttrs_mono (ref : String) (c : DownComponent) (l : List String)
    (st st' : ScanState) (h : scanAttrs ref c l st = .ok st') :
    (∀ p, st.1 = some p → st'.1 = some p) ∧
      (∀ p, st.2 = some p → st'.2 = some p) := by
  induction l generalizing st with
  | nil =>
    simp [scanAttrs] at h
    simp [← h]
  | cons a rest ih =>
    unfold scanAttrs at h
    by_cases ha : a = ref
    · simp only [ha, if_pos rfl] at h
      cases hI : updatePort st.1 c.opx_input_I with
      | error eI => simp [hI] at h
      | ok i' =>
        simp only [hI] at h
        cases hQ : updatePort st.2 c.opx_input_Q with
        | error eQ => simp [hQ] at h
        | ok q' =>
          simp only [hQ] at h
          have := ih (i', q') h
          refine ⟨fun p hp => ?_, fun p hp => ?_⟩
          · exact this.1 p (by rw [hp] at hI; exact updatePort_mono p _ i' hI)
          · exact this.2 p (by rw [hp] at hQ; exact updatePort_mono p _ q' hQ)
    · simp only [if_neg ha] at h
      exact ih st h

/-- A matching component's ports are recorded in any successful attribute
loop that sees the reference. -/
theorem scanAttrs_records (ref : String) (c : DownComponent) (l : List String)
    (st st' : ScanState) (hl : ref ∈ l) (h : scanAttrs ref c l st = .ok st') :
    st'.1 = some c.opx_input_I ∧ st'.2 = some c.opx_input_Q := by
  induction l generalizing st with
  | nil => simp at hl
  | cons a rest ih =>
    unfold scanAttrs at h
    by_cases ha : a = ref
    · simp only [ha, if_pos rfl] at h
      cases hI : updatePort st.1 c.opx_input_I with
      | error eI => simp [hI] at h
      | ok i' =>
        simp only [hI] at h
        cases hQ : updatePort st.2 c.opx_input_Q with
        | error eQ => simp [hQ] at h
        | ok q' =>
          simp only [hQ] at h
          have hi' : i' = some c.opx_input_I := updatePort_ok st.1 _ i' hI
          have hq' : q' = some c.opx_input_Q := updatePort_ok st.2 _ q' hQ
          have hmono := scanAttrs_mono ref c rest (i', q') st' h
          exact ⟨hmono.1 c.opx_input_I (by simp [hi']),
            hmono.2 c.opx_input_Q (by simp [hq'])⟩
    · have hrest : ref ∈ rest := by
        rcases List.mem_cons.mp hl with hEq | hr
        · exact absurd hEq.symm ha
        · exact hr
      simp only [if_neg ha] at h
      exact ih st hrest h

/-- Starting from a state that already records this component's ports, the
attribute loop succeeds without changing anything. -/
theorem scanAttrs_fixed (ref : String) (c : DownComponent) (l : List String) :
    scanAttrs ref c l (some c.opx_input_I, some c.opx_input_Q) =
      .ok (some c.opx_input_I, some c.opx_input_Q) := by
  induction l with
  | nil => rfl
  | cons a rest ih =>
    by_cases ha : a = ref
    · simp [scanAttrs, ha, updatePort, ih]
    · simp [scanAttrs, ha, ih]

/-- From the empty state, one component's attribute loop succeeds and
records its ports exactly if some attribute value is the reference. -/
theorem scanAttrs_from_empty (ref : String) (c : DownComponent) (l : List String) :
    scanAttrs ref c l (none, none) =
      .ok (if ref ∈ l then (some c.opx_input_I, some c.opx_input_Q)
        else (none, none)) := by
  induction l with
  | nil => rfl
  | cons a rest ih =>
    by_cases ha : a = ref
    · subst ha
      simp [scanAttrs, updatePort, scanAttrs_fixed]
    · have hne : ref ≠ a := fun hEq => ha hEq.symm
      simp [scanAttrs, ha, ih, List.mem_cons, hne]

/-- Components that never mention the reference leave the scan state
untouched. -/
theorem scanComponents_no_match (ref : String) (cs : List DownComponent)
    (st : ScanState) (h : ∀ c ∈ cs, ref ∉ c.attrs) :
    scanComponents ref cs st = .ok st := by
  induction cs with
  | nil => rfl
  | cons c rest ih =>
    have hc : ref ∉ c.attrs := h c (by simp)
    have hrest : ∀ c' ∈ rest, ref ∉ c'.attrs := fun c' hc' => h c' (by simp [hc'])
    simp [scanComponents, scanAttrs_no_match ref c c.attrs st hc, ih hrest]

/-- The component loop over an appended list runs the two halves in
sequence. -/
theorem scanComponents_append (ref : String) (l₁ l₂ : List DownComponent)
    (st : ScanState) :
    scanComponents ref (l₁ ++ l₂) st =
      match scanComponents ref l₁ st with
      | .error e => .error e
      | .ok st' => scanComponents ref l₂ st' := by
  induction l₁ generalizing st with
  | nil => simp [scanComponents]
  | cons c rest ih =>
    simp only [List.cons_append, scanComponents]
    cases hc : scanAttrs ref c c.attrs st with
    | error e => simp [hc]
    | ok st' =>
      simp only [hc]
      exact ih st'

/-- Once recorded, a port survives a successful component loop unchanged. -/
theorem scanComponents_mono (ref : String) (cs : List DownComponent)
    (st st' : ScanState) (h : scanComponents ref cs st = .ok st') :
    (∀ p, st.1 = some p → st'.1 = some p) ∧
      (∀ p, st.2 = some p → st'.2 = some p) := by
  induction cs generalizing st with
  | nil =>
    simp [scanComponents] at h
    simp [← h]
  | cons c rest ih =>
    unfold scanComponents at h
    cases hc : scanAttrs ref c c.attrs st with
    | error e => simp [hc] at h
    | ok stMid =>
      simp only [hc] at h
      have h₁ := scanAttrs_mono ref c c.attrs st stMid hc
      have h₂ := ih stMid h
      exact ⟨fun p hp => h₂.1 p (h₁.1 p hp), fun p hp => h₂.2 p (h₁.2 p hp)⟩

/-- Every matching component's ports are recorded in the final state of a
successful component loop. -/
theorem scanComponents_records (ref : String) (cs : List DownComponent)
    (st st' : ScanState) (c : DownComponent) (hc : c ∈ cs)
    (hattr : ref ∈ c.attrs) (h : scanComponents ref cs st = .ok st') :
    st'.1 = some c.opx_input_I ∧ st'.2 = some c.opx_input_Q := by
  induction cs generalizing st with
  | nil => simp at hc
  | cons c₀ rest ih =>
    unfold scanComponents at h
    cases h₀ : scanAttrs ref c₀ c₀.attrs st with
    | error e => simp [h₀] at h
    | ok stMid =>
      simp only [h₀] at h
      rcases List.mem_cons.mp hc with hEq | hmem
      · subst hEq
        have hrec := scanAttrs_records ref c c.attrs st stMid hattr h₀
        have hmono := scanComponents_mono ref rest stMid st' h
        exact ⟨hmono.1 _ hrec.1, hmono.2 _ hrec.2⟩
      · exact ih stMid hmem h

/-- A channel referencing up converter `"1"`, on OPX ports (1, 2). -/
def chA : IQChannel := ⟨some "1", ("con1", 1), ("con1", 2)⟩

/-- A second channel referencing up converter `"1"`, on OPX ports (3, 4). -/
def chB : IQChannel := ⟨some "1", ("con1", 3), ("con1", 4)⟩

/-- Counterexample to claim C2: for the up converter, zero matching IQ
channels is NOT a fatal configuration error — the loop in
`find_opx_outputs` falls through and the method returns Python `None`
(the raising variant in the source is commented out); and with two
distinct matching IQ channels it does not raise either, but returns the
first channel's ports. -/
theorem find_opx_outputs_counterexample :
    find_opx_outputs "1" [] = none ∧
      find_opx_outputs "1" [.iqChannel chA, .iqChannel chB] =
        some (("con1", 1), ("con1", 2)) :=
  ⟨rfl, by decide⟩

/-- Claim C2 as amended.  Up converter (`find_opx_outputs`): the scan
returns the I/Q output ports of the FIRST matching IQ channel, and when
zero channels match it returns Python `None` without raising.  Down
converter (`find_opx_inputs`, the second and effective definition): when
exactly one component references the converter it returns that component's
I/Q input ports; zero referencing components is a fatal configuration
error; and two referencing components with conflicting I or Q ports is a
fatal configuration error (matches with identical ports are tolerated). -/
theorem opx_port_discovery (ref selfId : String) :
    (∀ (pre post : List UpComponent) (c : IQChannel),
        (∀ comp ∈ pre, ¬ upMatches selfId comp) →
        c.frequency_converter_up = some selfId →
        find_opx_outputs selfId (pre ++ .iqChannel c :: post) =
          some (c.opx_output_I, c.opx_output_Q)) ∧
      (∀ cs : List UpComponent, (∀ comp ∈ cs, ¬ upMatches selfId comp) →
        find_opx_outputs selfId cs = none) ∧
      (∀ (pre post : List DownComponent) (c : DownComponent),
        ref ∈ c.attrs →
        (∀ c' ∈ pre ++ post, ref ∉ c'.attrs) →
        find_opx_inputs ref (pre ++ c :: post) =
          .ok (c.opx_input_I, c.opx_input_Q)) ∧
      (∀ cs : List DownComponent, (∀ c ∈ cs, ref ∉ c.attrs) →
        find_opx_inputs ref cs = .error .notConnected) ∧
      (∀ (cs : List DownComponent) (c₁ c₂ : DownComponent),
        c₁ ∈ cs → c₂ ∈ cs → ref ∈ c₁.attrs → ref ∈ c₂.attrs →
        (c₁.opx_input_I ≠ c₂.opx_input_I ∨ c₁.opx_input_Q ≠ c₂.opx_input_Q) →
        find_opx_inputs ref cs = .error .multiple) := by
  refine ⟨find_opx_outputs_first_match selfId, find_opx_outputs_no_match selfId,
    ?_, ?_, ?_⟩
  · intro pre post c hattr hsib
    have hpre : ∀ c' ∈ pre, ref ∉ c'.attrs :=
      fun c' hc' => hsib c' (by simp [hc'])
    have hpost : ∀ c' ∈ post, ref ∉ c'.attrs :=
      fun c' hc' => hsib c' (by simp [hc'])
    unfold find_opx_inputs
    rw [scanComponents_append, scanComponents_no_match ref pre _ hpre]
    have hstep : scanComponents ref (c :: post) (none, none) =
        .ok (some c.opx_input_I, some c.opx_input_Q) := by
      unfold scanComponents
      rw [scanAttrs_from_empty, if_pos hattr]
      exact scanComponents_no_match ref post _ hpost
    simp [hstep]
  · intro cs h
    unfold find_opx_inputs
    rw [scanComponents_no_match ref cs _ h]
  · intro cs c₁ c₂ h₁ h₂ hattr₁ hattr₂ hconf
    unfold find_opx_inputs
    cases hscan : scanComponents ref cs (none, none) with
    | error e =>
      rw [scanComponents_error ref cs _ e hscan]
    | ok st' =>
      exfalso
      have hr₁ := scanComponents_records ref cs _ st' c₁ h₁ hattr₁ hscan
      have hr₂ := scanComponents_records ref cs _ st' c₂ h₂ hattr₂ hscan
      rcases hconf with hconf | hconf
      · exact hconf (Option.some.inj (hr₁.1.symm.trans hr₂.1))
      · exact hconf (Option.some.inj (hr₁.2.symm.trans hr₂.2))

/-- A component referencing the down converter `"ref1"`, on OPX input
ports (1, 2). -/
def dcA : DownComponent := ⟨["ref1"], ("con1", 1), ("con1", 2)⟩

/-- A second component referencing `"ref1"`, on different input ports. -/
def dcB : DownComponent := ⟨["ref1"], ("con1", 3), ("con1", 4)⟩

/-- A component with no reference attribute values. -/
def dcO : DownComponent := ⟨[], ("con1", 9), ("con1", 10)⟩

/-- Witness for the amended C2, instantiating all five parts on concrete
component lists. -/
theorem opx_port_discovery_witness :
    find_opx_outputs "1" ([.other] ++ .iqChannel chA :: [.iqChannel chB]) =
        some (("con1", 1), ("con1", 2)) ∧
      find_opx_outputs "2" [.other, .iqChannel chA] = none ∧
      find_opx_inputs "ref1" ([dcO] ++ dcA :: []) = .ok (("con1", 1), ("con1", 2)) ∧
      find_opx_inputs "ref1" [dcO] = .error .notConnected ∧
      find_opx_inputs "ref1" [dcA, dcB] = .error .multiple := by
  have h₁ := opx_port_discovery "ref1" "1"
  have h₂ := opx_port_discovery "ref1" "2"
  exact ⟨h₁.1 [.other] [.iqChannel chB] chA (by decide) (by decide),
    h₂.2.1 [.other, .iqChannel chA] (by decide),
    h₁.2.2.1 [dcO] [] dcA (by decide) (by decide),
    h₁.2.2.2.1 [dcO] (by decide),
    h₁.2.2.2.2 [dcA, dcB] dcA dcB (by decide) (by decide) (by decide)
      (by decide) (by decide)⟩

end SquidLabQuam
